import Mathlib

/-!
Verification of the dorch WAD-metadata pipeline.

Shallow embedding of the Python sources under `src/`:
* `src/indexer/insert.py` — WAD container decoding, map detection, per-map
  statistics, hash validation, merge output.
* `src/archiver/meta.py` — the same decoder plus the S3 resolver.
* `src/archiver/meta_eda.py` — the job envelope encoding.
* `src/archiver/screenshot-worker.py` — the worker ACK/NAK decision.
* `src/archiver/meta-worker.py` — per-map dedupe (`last definition wins`).

Bytes are modelled as `List Nat`; Python `int` is `Int`/`Nat`; `dict` values
that the embedded code inspects are modelled by small inductive types.
-/

namespace Dorch

/-- Python `str.strip()` whitespace set, restricted to the ASCII range the
decoded lump names can contain (`' '`, `\t`, `\n`, `\r`, `\x0b`, `\x0c`). -/
def isPyWS (c : Char) : Bool :=
  (c == ' ') || (c == '\t') || (c == '\n') || (c == '\r') || (c == '\x0b') || (c == '\x0c')

/-- Strip leading and trailing Python whitespace from a character list. -/
def pyStripList (cs : List Char) : List Char :=
  ((cs.dropWhile isPyWS).reverse.dropWhile isPyWS).reverse

/-- Python `str.strip()` (ASCII whitespace). -/
def pyStrip (s : String) : String :=
  String.mk (pyStripList s.toList)

/-- Python `str.upper()` on the ASCII range (U+FFFD is unchanged by both). -/
def pyUpper (s : String) : String :=
  String.mk (s.toList.map Char.toUpper)

/-- Python `str.lower()` on the ASCII range. -/
def pyLower (s : String) : String :=
  String.mk (s.toList.map Char.toLower)

/-- `bytes.decode("ascii", errors="replace")`: bytes ≥ 0x80 become U+FFFD. -/
def decodeAsciiReplace (bs : List Nat) : String :=
  String.mk (bs.map (fun b => if b < 128 then Char.ofNat b else '�'))

/-- `bytes.rstrip(b"\x00")`. -/
def rstripNul (bs : List Nat) : List Nat :=
  (bs.reverse.dropWhile (· == 0)).reverse

/-- Little-endian value of a byte list (`int.from_bytes(…, "little")`). -/
def leNat (bs : List Nat) : Nat :=
  bs.foldr (fun b acc => b + 256 * acc) 0

/-- `int.from_bytes(buf[p:p+4], "little", signed=False)`. -/
def u32le (buf : List Nat) (p : Nat) : Nat :=
  leNat ((buf.drop p).take 4)

/-- A directory entry recovered by the classic-container decoder
(`WadLump` in `insert.py` / `meta.py`). -/
structure WadLump where
  name : String
  offset : Nat
  size : Nat
deriving DecidableEq, Repr

/-- ASCII bytes of `b"IWAD"`. -/
def iwadIdent : List Nat := [73, 87, 65, 68]

/-- ASCII bytes of `b"PWAD"`. -/
def pwadIdent : List Nat := [80, 87, 65, 68]

/-- `parse_wad_lumps` from `insert.py` (identical in `meta.py`): header check,
count/offset range checks, then one 16-byte entry per lump.  `numlumps` is read
unsigned, so the source's `numlumps < 0` test can never fire.  An entry whose
`filepos + size` overruns the buffer is recorded with
`size = max(0, len(buf) - filepos)`; on `Nat`, `buf.length - filepos` is
exactly that clamped value. -/
def parseWadLumps (buf : List Nat) : Option (List WadLump) :=
  let n := buf.length
  if n < 12 then none
  else
    let ident := buf.take 4
    if ident ≠ iwadIdent ∧ ident ≠ pwadIdent then none
    else
      let numlumps := u32le buf 4
      let infotableofs := u32le buf 8
      if numlumps > 200000 then none
      else if infotableofs + numlumps * 16 > n then none
      else some ((List.range numlumps).map (fun i =>
        let p := infotableofs + i * 16
        let filepos := u32le buf p
        let size := u32le buf (p + 4)
        let name := decodeAsciiReplace (rstripNul ((buf.drop (p + 8)).take 8))
        if filepos + size > n then
          { name := name, offset := filepos, size := n - filepos }
        else
          { name := name, offset := filepos, size := size }))

/-- Python `re.match(r"^(E[1-9]M[1-9]|MAP[0-9]{2})$", s)`: the anchored
alternation matches the bare pattern, and — because `$` in Python also matches
just before a single newline ending the string — the pattern followed by one
trailing `'\n'`.  (`[0-9]` is `Char.isDigit`.) -/
def isMapMarker (s : String) : Bool :=
  match s.toList with
  | ['E', a, 'M', b] =>
      (decide ('1' ≤ a) && decide (a ≤ '9')) && (decide ('1' ≤ b) && decide (b ≤ '9'))
  | ['M', 'A', 'P', c, d] => c.isDigit && d.isDigit
  | ['E', a, 'M', b, '\n'] =>
      (decide ('1' ≤ a) && decide (a ≤ '9')) && (decide ('1' ≤ b) && decide (b ≤ '9'))
  | ['M', 'A', 'P', c, d, '\n'] => c.isDigit && d.isDigit
  | _ => false

/-- The five "core" lump names required by `detect_maps_from_lumps`. -/
def coreLumpNames : List String :=
  ["THINGS", "LINEDEFS", "SIDEDEFS", "VERTEXES", "SECTORS"]

/-- `core.issubset(set(names[i+1:i+1+16]))` from `detect_maps_from_lumps`. -/
def coreOk (names : List String) (i : Nat) : Bool :=
  coreLumpNames.all (fun c => ((names.drop (i + 1)).take 16).contains c)

/-- The confirmed markers, in directory order, before deduplication
(the `found` list in `detect_maps_from_lumps`). -/
def foundMarkers (names : List String) : List String :=
  (List.range names.length).filterMap (fun i =>
    let n := names.getD i ""
    if isMapMarker n && coreOk names i then some n else none)

/-- Loop of `uniq_preserve`: strip each element, drop empties, keep the first
occurrence of each remaining value. -/
def uniqPreserveGo : List String → List String → List String
  | [], _ => []
  | x :: rest, seen =>
      let x' := pyStrip x
      if x' = "" ∨ x' ∈ seen then uniqPreserveGo rest seen
      else x' :: uniqPreserveGo rest (x' :: seen)

/-- `uniq_preserve` from `insert.py` / `meta.py`. -/
def uniqPreserve (l : List String) : List String :=
  uniqPreserveGo l []

/-- Upper-cased name list used by `detect_maps_from_lumps`. -/
def namesOf (lumps : List WadLump) : List String :=
  lumps.map (fun l => pyUpper l.name)

/-- `detect_maps_from_lumps` from `insert.py` / `meta.py`. -/
def detectMapsFromLumps (lumps : List WadLump) : List String :=
  uniqPreserve (foundMarkers (namesOf lumps))

/-- The `maps` list produced by `extract_from_wad_bytes`: `parse_wad_lumps`
followed by `detect_maps_from_lumps`; a falsy lump list (parse failure or an
empty directory) yields the unknown-format record, which carries no maps. -/
def extractWadMaps (buf : List Nat) : List String :=
  match parseWadLumps buf with
  | some lumps => if lumps.isEmpty then [] else detectMapsFromLumps lumps
  | none => []

/-- Spec-side companion for §4.E/C10: keep the first occurrence of every
element, preserving relative order ("listed only at its first occurrence"). -/
def dedupFirstSpec : List String → List String
  | [] => []
  | a :: l => a :: dedupFirstSpec (l.filter (fun b => decide (b ≠ a)))
termination_by l => l.length
decreasing_by
  simp only [List.length_cons]
  exact Nat.lt_succ_of_le (List.length_filter_le _ _)

/-- `find_lump`: first lump in the block whose (exact) name matches. -/
def findLump (lumps : List WadLump) (name : String) : Option WadLump :=
  lumps.find? (fun l => l.name == name)

/-- Record sizes from `insert.py`. -/
def DOOM_THINGS_REC : Nat := 10
def DOOM_LINEDEFS_REC : Nat := 14
def DOOM_SIDEDEFS_REC : Nat := 30
def DOOM_SECTORS_REC : Nat := 26
def HEXEN_THINGS_REC : Nat := 20
def HEXEN_LINEDEFS_REC : Nat := 16

/-- `detect_map_format` from `insert.py` over a map block's lump list. -/
def detectMapFormat (lumps : List WadLump) : String :=
  match findLump lumps "LINEDEFS", findLump lumps "THINGS" with
  | some linedefs, some things =>
      let ls := linedefs.size
      let ts := things.size
      let doomOk := (ls % DOOM_LINEDEFS_REC == 0) && (ts % DOOM_THINGS_REC == 0)
      let hexOk := (ls % HEXEN_LINEDEFS_REC == 0) && (ts % HEXEN_THINGS_REC == 0)
      if doomOk && !hexOk then "doom"
      else if hexOk && !doomOk then "hexen"
      else if doomOk && hexOk then
        if (findLump lumps "BEHAVIOR").isSome then "hexen" else "doom"
      else "unknown"
  | _, _ => "unknown"

/-- `_decode_name8`: split at the first NUL, decode ASCII with replacement,
then `strip()`. -/
def decodeName8 (bs : List Nat) : String :=
  pyStrip (decodeAsciiReplace (bs.takeWhile (· ≠ 0)))

/-- One 30-byte SIDEDEFS record's contribution to the texture-name list:
upper (bytes 4–11), lower (12–19), middle (20–27), in that order, dropping
empty names and the `-` placeholder. -/
def sidedefRecordNames (r : List Nat) : List String :=
  [(r.drop 4).take 8, (r.drop 12).take 8, (r.drop 20).take 8].filterMap (fun raw =>
    let name := decodeName8 raw
    if name = "" ∨ name = "-" then none else some name)

/-- `parse_doom_sidedefs_texture_names` from `insert.py`. -/
def parseDoomSidedefsTextureNames (bs : List Nat) : List String :=
  if bs.length % DOOM_SIDEDEFS_REC ≠ 0 then []
  else ((List.range (bs.length / DOOM_SIDEDEFS_REC)).map (fun i =>
    sidedefRecordNames ((bs.drop (DOOM_SIDEDEFS_REC * i)).take DOOM_SIDEDEFS_REC))).flatten

/-- One 26-byte SECTORS record's contribution: floor (bytes 4–11) and
ceiling (12–19) texture names, dropping empty names and `-`. -/
def sectorRecordNames (r : List Nat) : List String :=
  [(r.drop 4).take 8, (r.drop 12).take 8].filterMap (fun raw =>
    let name := decodeName8 raw
    if name = "" ∨ name = "-" then none else some name)

/-- `parse_doom_sectors_texture_names` from `insert.py`. -/
def parseDoomSectorsTextureNames (bs : List Nat) : List String :=
  if bs.length % DOOM_SECTORS_REC ≠ 0 then []
  else ((List.range (bs.length / DOOM_SECTORS_REC)).map (fun i =>
    sectorRecordNames ((bs.drop (DOOM_SECTORS_REC * i)).take DOOM_SECTORS_REC))).flatten

/-- Python string `<=`: lexicographic comparison of code points. -/
def charListLe : List Char → List Char → Bool
  | [], _ => true
  | _ :: _, [] => false
  | a :: as, b :: bs => a.toNat < b.toNat || (a.toNat = b.toNat && charListLe as bs)

/-- Python `sorted(set(l))`: the distinct elements in ascending code-point
order. -/
def sortedSet (l : List String) : List String :=
  l.dedup.insertionSort (fun a b => charListLe a.toList b.toList = true)

/-- `read_lump_bytes_from_buf`: empty on a degenerate lump, else the slice
`buf[off : min(len(buf), off + size)]`. -/
def readLumpBytesFromBuf (buf : List Nat) (l : WadLump) : List Nat :=
  if l.size = 0 ∨ l.offset ≥ buf.length then []
  else (buf.drop l.offset).take (min buf.length (l.offset + l.size) - l.offset)

/-- The `stats["textures"]` computation of `map_summary_from_wad_bytes`
(`insert.py` lines 321–332): a Python `set` updated from the SIDEDEFS and
SECTORS name lists, then `sorted(…)` — i.e. the sorted list of the distinct
names, with all multiplicities discarded. -/
def mapSummaryTextures (buf : List Nat) (lumps : List WadLump) : List String :=
  let sidedefNames :=
    match findLump lumps "SIDEDEFS" with
    | some l => parseDoomSidedefsTextureNames (readLumpBytesFromBuf buf l)
    | none => []
  let sectorNames :=
    match findLump lumps "SECTORS" with
    | some l => parseDoomSectorsTextureNames (readLumpBytesFromBuf buf l)
    | none => []
  sortedSet (sidedefNames ++ sectorNames)

/-- A value looked up in the expected-hash map: absent key, a non-string
JSON value, or a string. -/
inductive ExpVal where
  | absent
  | nonstring
  | str (s : String)
deriving DecidableEq, Repr

/-- The expected-hash map restricted to the three algorithms the validator
inspects. -/
structure ExpectedHashes where
  md5 : ExpVal
  sha1 : ExpVal
  sha256 : ExpVal
deriving DecidableEq, Repr

/-- Output shape of `compute_hashes_for_file`: all three digests present. -/
structure ComputedHashes where
  md5 : String
  sha1 : String
  sha256 : String
deriving DecidableEq, Repr

/-- `{ok, message}` returned by `validate_expected_hashes`. -/
structure IntegrityResult where
  ok : Bool
  message : String
deriving DecidableEq, Repr

/-- Per-algorithm body of the `validate_expected_hashes` loop: skip a missing,
non-string or blank expected value; otherwise compare
`exp.strip().lower()` with `got.lower()` and report a mismatch line. -/
def hashMismatch (algo : String) (exp : ExpVal) (got : String) : Option String :=
  match exp with
  | .str s =>
      if pyStrip s = "" then none
      else
        let e := pyLower (pyStrip s)
        if e ≠ pyLower got then some (algo ++ " expected=" ++ e ++ " got=" ++ got)
        else none
  | _ => none

/-- `validate_expected_hashes` from `insert.py`. -/
def validateExpectedHashes (expected : ExpectedHashes) (computed : ComputedHashes) :
    IntegrityResult :=
  let mismatches :=
    [hashMismatch "md5" expected.md5 computed.md5,
     hashMismatch "sha1" expected.sha1 computed.sha1,
     hashMismatch "sha256" expected.sha256 computed.sha256].filterMap id
  if mismatches.isEmpty then { ok := true, message := "ok" }
  else { ok := false, message := "Integrity check failed: " ++ String.intercalate "; " mismatches }

/-- A non-null scalar JSON value, as found in the merged record's `file`
object (its five entries are all scalars). -/
inductive JVal where
  | bool (b : Bool)
  | num (n : Int)
  | str (s : String)
deriving DecidableEq, Repr

/-- The `file` sub-object literal of `build_output_object`
(`insert.py` lines 1218–1224), as an association list of nullable scalars. -/
def buildFileField (waType waSize s3Url waCorrupt waCorruptMsg : Option JVal) :
    List (String × Option JVal) :=
  [("type", waType), ("size", waSize), ("url", s3Url),
   ("corrupt", waCorrupt), ("corruptMessage", waCorruptMsg)]

/-- The integrity override of `build_output_object` (lines 1257–1263): when an
integrity result with `ok = False` is supplied, `file.corrupt` is set to `True`
and `file.corruptMessage` to the result's message (`"Failed integrity checks"`
if that message is falsy). -/
def applyIntegrityToFile (file : List (String × Option JVal))
    (integrity : Option IntegrityResult) : List (String × Option JVal) :=
  match integrity with
  | some r =>
      if r.ok = false then
        file.map (fun kv =>
          if kv.1 = "corrupt" then (kv.1, some (JVal.bool true))
          else if kv.1 = "corruptMessage" then
            (kv.1, some (JVal.str (if r.message = "" then "Failed integrity checks" else r.message)))
          else kv)
      else file
  | none => none |>.getD file

/-- `prune_nones` restricted to a flat object of scalars: entries whose value
is `None` are removed (scalars are never empty containers). -/
def pruneFlat (kvs : List (String × Option JVal)) : List (String × JVal) :=
  kvs.filterMap (fun kv => kv.2.map (fun v => (kv.1, v)))

/-- The pruned `file` field of the merged record, for a given integrity
result. -/
def mergedFileField (waType waSize s3Url waCorrupt waCorruptMsg : Option JVal)
    (integrity : Option IntegrityResult) : List (String × JVal) :=
  pruneFlat (applyIntegrityToFile
    (buildFileField waType waSize s3Url waCorrupt waCorruptMsg) integrity)

/-- Outcome of one `session.head(url, …)` probe: an HTTP status code, or a
raised `requests.RequestException`. -/
inductive HeadOutcome where
  | status (code : Nat)
  | requestError
deriving DecidableEq, Repr

/-- Python `str.rstrip('/')`. -/
def rstripSlash (s : String) : String :=
  String.mk ((s.toList.reverse.dropWhile (· == '/')).reverse)

/-- The single candidate URL probed by `resolve_s3_url` in `insert.py`:
`{base}/{sha1-with-leading-"00"-stripped}/{sha1}.{ext}.gz`. -/
def resolveCandidateUrl (s3Base sha1 ext : String) : String :=
  let folderSha1 := if sha1.startsWith "00" then sha1.drop 2 else sha1
  rstripSlash s3Base ++ "/" ++ folderSha1 ++ "/" ++ sha1 ++ "." ++ ext ++ ".gz"

/-- `resolve_s3_url` from `insert.py` (lines 1013–1041), with the HEAD call
abstracted as a function from URL to outcome.  Status 200 returns the URL;
404/403 return `None`; any other status falls off the `if/elif` and the
function returns `None` implicitly; a `requests.RequestException` is caught
and also returns `None`. -/
def resolveS3Url (s3Base sha1 ext : String) (head : String → HeadOutcome) :
    Option String :=
  if sha1.length ≠ 40 then none
  else
    let url := resolveCandidateUrl s3Base sha1 ext
    match head url with
    | .status c =>
        if c = 200 then some url
        else if c = 404 ∨ c = 403 then none
        else none
    | .requestError => none

/-- The worker's verdict on a fetched message. -/
inductive AckDecision where
  | ack
  | nak
deriving DecidableEq, Repr

/-- `_max_deliveries()` default (`DORCH_SCREENSHOT_MAX_DELIVERIES`, default 3). -/
def defaultMaxDeliveries : Int := 3

/-- The renderer-failure ACK/NAK decision of `screenshot-worker.py`
(lines 650–659): `too_many` holds when the message metadata carries an integer
`num_delivered` at or above the cap; the message is ACKed when the failure is
non-retryable or `too_many`, and NAKed otherwise. -/
def screenshotFailureDisposition (retry : Bool) (numDelivered : Option Int)
    (maxDeliveries : Int) : AckDecision :=
  let tooMany := match numDelivered with
    | some d => decide (d ≥ maxDeliveries)
    | none => false
  if (!retry) || tooMany then .ack else .nak

/-- One element of the `per_map_stats` list as `_dedupe_per_map_stats_keep_last`
sees it: either not a dict / a dict without a string `map` field (skipped), or
an entry with a string map name; `payload` keeps distinct entries
distinguishable. -/
inductive MapEntry where
  | junk (payload : Nat)
  | named (name : String) (payload : Nat)
deriving DecidableEq, Repr

/-- The case-folded, whitespace-trimmed key of an entry, when it has one. -/
def entryKey : MapEntry → Option String
  | .junk _ => none
  | .named n _ => some (pyUpper (pyStrip n))

/-- Loop of `_dedupe_per_map_stats_keep_last` over the reversed input: skip
non-entries, skip empty or already-seen keys, keep the rest. -/
def dedupeGo : List MapEntry → List String → List MapEntry
  | [], _ => []
  | e :: rest, seen =>
      match e with
      | .junk _ => dedupeGo rest seen
      | .named n p =>
          let key := pyUpper (pyStrip n)
          if key = "" ∨ key ∈ seen then dedupeGo rest seen
          else .named n p :: dedupeGo rest (key :: seen)

/-- `_dedupe_per_map_stats_keep_last` from `meta-worker.py`: walk the input in
reverse keeping the first (i.e. last-in-input) occurrence of each non-empty
key, then reverse back. -/
def dedupeKeepLast (l : List MapEntry) : List MapEntry :=
  (dedupeGo l.reverse []).reverse

/-- A JSON value appearing inside a job envelope's opaque `wad_entry` /
`idgames_entry` objects (only its identity matters to the envelope codec). -/
inductive EnvField where
  | int (i : Int)
  | str (s : String)
  | obj (kvs : List (String × JVal))
  | optObj (o : Option (List (String × JVal)))
  | flt (q : ℚ)
deriving DecidableEq, Repr

/-- The `MetaJob` dataclass of `meta_eda.py`: exactly five fields
(`dispatched_at` is a Python float, modelled as a rational). -/
structure MetaJob where
  version : Int
  sha1 : String
  wadEntry : List (String × JVal)
  idgamesEntry : Option (List (String × JVal))
  dispatchedAt : ℚ
deriving DecidableEq, Repr

/-- The JSON object literal serialized by `MetaJob.to_bytes`, key for key. -/
def MetaJob.toObj (j : MetaJob) : List (String × EnvField) :=
  [("version", .int j.version),
   ("sha1", .str j.sha1),
   ("wad_entry", .obj j.wadEntry),
   ("idgames_entry", .optObj j.idgamesEntry),
   ("dispatched_at", .flt j.dispatchedAt)]

/-! ## Claim C1 -/

/-- Two 30-byte SIDEDEFS records: (upper=STONE, lower=-, middle=BRICK) and
(upper=STONE, lower=BRICK, middle=STONE): STONE occurs 3 times, BRICK twice,
`-` three times. -/
def c1SidedefsBytes : List Nat :=
  [0,0,0,0, 83,84,79,78,69,0,0,0, 45,0,0,0,0,0,0,0, 66,82,73,67,75,0,0,0, 0,0] ++
  [0,0,0,0, 83,84,79,78,69,0,0,0, 66,82,73,67,75,0,0,0, 83,84,79,78,69,0,0,0, 0,0]

/-- C1: the spec (and the repository's own test `test_meta_textures.py`) says
`stats.textures` is a bag — a mapping texture name → occurrence count, here
STONE ↦ 3 and BRICK ↦ 2.  The only in-tree implementation,
`map_summary_from_wad_bytes` in `insert.py`, accumulates the names into a
Python `set` and stores `sorted(set)`: the occurrence list `[STONE, BRICK,
STONE, BRICK, STONE]` collapses to the two-element list `["BRICK","STONE"]`
and every multiplicity is discarded. -/
theorem c1_textures_set_not_histogram :
    parseDoomSidedefsTextureNames c1SidedefsBytes =
      ["STONE", "BRICK", "STONE", "BRICK", "STONE"] ∧
    mapSummaryTextures c1SidedefsBytes [⟨"SIDEDEFS", 0, 60⟩] = ["BRICK", "STONE"] :=
  ⟨rfl, rfl⟩

/-! ## Claim C2 -/

/-- C2: §4.H lists six envelope keys including `readmes_entry`, and both
`meta-dispatch.py` and `meta-worker.py` use `job.readmes_entry`; but the
`MetaJob` dataclass of `meta_eda.py` has no such field: `to_bytes` emits
exactly the five keys below, so no round-trip can preserve `readmes_entry`. -/
theorem c2_envelope_encoder_omits_readmes_entry :
    ∀ j : MetaJob,
      (MetaJob.toObj j).map Prod.fst =
        ["version", "sha1", "wad_entry", "idgames_entry", "dispatched_at"] ∧
      "readmes_entry" ∉ (MetaJob.toObj j).map Prod.fst := by
  intro j
  refine ⟨rfl, ?_⟩
  simp [MetaJob.toObj]

/-! ## Claim C3 -/

/-- C3 counterexample: a renderer-reported failure with `retry = False`
(e.g. the renderer classified the failure as non-retryable) on a message
delivered once.  The claim says the worker NAKs unless the delivery count has
reached the cap (3), but `screenshot-worker.py` ACKs. -/
theorem c3_counterexample :
    screenshotFailureDisposition false (some 1) defaultMaxDeliveries = .ack ∧
    ¬ ((1 : Int) ≥ defaultMaxDeliveries) ∧ defaultMaxDeliveries = 3 := by
  refine ⟨rfl, by decide, rfl⟩

/-- C3 amended: on a renderer-reported failure the screenshot worker ACKs
exactly when the failure is non-retryable or the message's delivery count has
reached the cap; it NAKs otherwise.  (The meta worker has no delivery-count
cap at all: its failure path NAKs unconditionally.) -/
theorem c3_amended_ack_iff_nonretryable_or_capped :
    ∀ (retry : Bool) (numDelivered : Option Int) (cap : Int),
      screenshotFailureDisposition retry numDelivered cap = .ack ↔
        (retry = false ∨ ∃ d, numDelivered = some d ∧ d ≥ cap) := by
  intro retry numDelivered cap
  cases retry <;> cases numDelivered <;>
    simp only [screenshotFailureDisposition, Bool.not_false, Bool.not_true,
      Bool.true_or, Bool.false_or, if_true]
  · simp
  · simp
  · simp [if_neg]
  · rename_i d
    by_cases h : d ≥ cap
    · simp [h]
    · simp [h]

/-! ## Claim C6 -/

/-- The C6 counterexample block: LINEDEFS size 0 (divisible by both 14 and
16), THINGS size 10 (divisible by 10 but not 20), BEHAVIOR present. -/
def c6Block : List WadLump :=
  [⟨"THINGS", 0, 10⟩, ⟨"LINEDEFS", 0, 0⟩, ⟨"BEHAVIOR", 0, 0⟩]

/-- C6 counterexample: in this block the LINEDEFS size is divisible by both
14 and 16 and a BEHAVIOR lump is present, so the claim demands `hexen`; the
code returns `doom`, because its "both divisible" branch additionally requires
the THINGS size to be divisible by 10 and by 20, and 10 is not divisible
by 20. -/
theorem c6_counterexample :
    detectMapFormat c6Block = "doom" ∧
    (0 : Nat) % 14 = 0 ∧ (0 : Nat) % 16 = 0 ∧
    (findLump c6Block "BEHAVIOR").isSome = true ∧
    detectMapFormat c6Block ≠ "hexen" := by
  refine ⟨rfl, rfl, rfl, rfl, by decide⟩

/-- C6 amended: for a block containing THINGS and LINEDEFS whose LINEDEFS
size is divisible by both 14 and 16 **and whose THINGS size is divisible by
both 10 and 20**, the detector returns `hexen` when a BEHAVIOR lump is present
and `doom` otherwise. -/
theorem c6_amended_both_divisible :
    ∀ (lumps : List WadLump) (ld th : WadLump),
      findLump lumps "LINEDEFS" = some ld → findLump lumps "THINGS" = some th →
      ld.size % 14 = 0 → ld.size % 16 = 0 → th.size % 10 = 0 → th.size % 20 = 0 →
      detectMapFormat lumps =
        (if (findLump lumps "BEHAVIOR").isSome then "hexen" else "doom") := by
  intro lumps ld th hld hth h14 h16 h10 h20
  unfold detectMapFormat
  rw [hld, hth]
  simp [DOOM_LINEDEFS_REC, DOOM_THINGS_REC, HEXEN_LINEDEFS_REC, HEXEN_THINGS_REC,
    h14, h16, h10, h20]

/-- The C6 witness block: THINGS size 20, LINEDEFS size 224 = 14·16,
BEHAVIOR present. -/
def c6WitnessBlock : List WadLump :=
  [⟨"THINGS", 0, 20⟩, ⟨"LINEDEFS", 0, 224⟩, ⟨"BEHAVIOR", 0, 0⟩]

/-- C6 witness: the amended theorem applied to a concrete block. -/
theorem c6_amended_witness :
    detectMapFormat c6WitnessBlock =
      (if (findLump c6WitnessBlock "BEHAVIOR").isSome then "hexen" else "doom") :=
  c6_amended_both_divisible c6WitnessBlock ⟨"LINEDEFS", 0, 224⟩ ⟨"THINGS", 0, 20⟩
    rfl rfl (by decide) (by decide) (by decide) (by decide)

/-! ## Claim C9 -/

/-- A 40-hex sha1 used in the C9 theorems. -/
def c9Sha : String := "0000000000000000000000000000000000000000"

/-- C9 counterexample: the claim says an HTTP 500 response or a raised
request error propagates to the caller; `resolve_s3_url` instead returns the
same not-found value (`None`) it returns for 404. -/
theorem c9_counterexample :
    resolveS3Url "https://bucket.example" c9Sha "wad" (fun _ => .status 500) = none ∧
    resolveS3Url "https://bucket.example" c9Sha "wad" (fun _ => .requestError) = none ∧
    resolveS3Url "https://bucket.example" c9Sha "wad" (fun _ => .status 404) = none :=
  ⟨rfl, rfl, rfl⟩

/-- C9 amended: for a 40-character sha1 the resolver returns the canonical
candidate URL exactly when the HEAD probe answers 200; every other status
(including 404/403) and every request error yields `None`. -/
theorem c9_amended_url_iff_200 :
    ∀ (base sha1 ext : String) (head : String → HeadOutcome),
      sha1.length = 40 →
      (resolveS3Url base sha1 ext head = some (resolveCandidateUrl base sha1 ext) ↔
        head (resolveCandidateUrl base sha1 ext) = .status 200) ∧
      (head (resolveCandidateUrl base sha1 ext) ≠ .status 200 →
        resolveS3Url base sha1 ext head = none) := by
  intro base sha1 ext head h40
  have key : resolveS3Url base sha1 ext head =
      (if head (resolveCandidateUrl base sha1 ext) = .status 200 then
        some (resolveCandidateUrl base sha1 ext) else none) := by
    simp only [resolveS3Url, h40]
    cases hh : head (resolveCandidateUrl base sha1 ext) with
    | status c =>
        by_cases h200 : c = 200
        · subst h200; simp
        · simp [h200]
    | requestError => simp
  rw [key]
  by_cases hp : head (resolveCandidateUrl base sha1 ext) = .status 200
  · simp [hp]
  · simp [hp]

/-- C9 witness: with a probe answering 200, the resolver returns the URL. -/
theorem c9_amended_witness :
    resolveS3Url "https://bucket.example" c9Sha "wad" (fun _ => .status 200) =
      some (resolveCandidateUrl "https://bucket.example" c9Sha "wad") :=
  (c9_amended_url_iff_200 "https://bucket.example" c9Sha "wad" (fun _ => .status 200)
    (by rfl)).1.mpr rfl

/-! ## Claim C5 -/

/-- A 28-byte PWAD: header (count 1, directory at 12) and one directory
entry declaring offset 9999 (far beyond the buffer), size 1, name
`AAAAAAAA`. -/
def c5Buf : List Nat :=
  [80,87,65,68, 1,0,0,0, 12,0,0,0] ++ [15,39,0,0, 1,0,0,0, 65,65,65,65,65,65,65,65]

/-- C5 counterexample: the decoder accepts the buffer and records the lump
with its size clamped to `max(0, 28 − 9999) = 0` but its offset kept at 9999,
so `offset + size = 9999 > 28` and the claimed invariant
`offset + size ≤ file size` fails. -/
theorem c5_counterexample :
    parseWadLumps c5Buf = some [⟨"AAAAAAAA", 9999, 0⟩] ∧
    c5Buf.length = 28 ∧ ¬ (9999 + 0 ≤ c5Buf.length) :=
  ⟨rfl, rfl, by decide⟩

/-- C5 amended: for every buffer accepted by `parse_wad_lumps`, each recorded
lump either satisfies `offset + size ≤ file size`, or has `size = 0` with its
declared offset beyond the buffer (the clamp `size = max(0, file_size −
offset)` makes the invariant hold exactly when the offset itself is in
range). -/
theorem c5_amended_clamped_lumps :
    ∀ (buf : List Nat) (lumps : List WadLump),
      parseWadLumps buf = some lumps →
      ∀ l ∈ lumps,
        l.offset + l.size ≤ buf.length ∨ (l.size = 0 ∧ buf.length < l.offset) := by
  intro buf lumps h l hl
  simp only [parseWadLumps] at h
  split at h
  · exact absurd h (by simp)
  split at h
  · exact absurd h (by simp)
  split at h
  · exact absurd h (by simp)
  split at h
  · exact absurd h (by simp)
  obtain rfl : _ = lumps := Option.some.inj h
  obtain ⟨i, _, rfl⟩ := List.mem_map.mp hl
  set p := u32le buf 8 + i * 16 with hp
  by_cases hov : u32le buf p + u32le buf (p + 4) > buf.length
  · rw [if_pos hov]
    by_cases hoff : u32le buf p ≤ buf.length
    · left
      simp only []
      omega
    · right
      constructor
      · simp only []
        omega
      · simp only []
        omega
  · rw [if_neg hov]
    left
    simp only []
    omega

/-- C5 witness: the amended theorem applied to the concrete buffer above;
the recorded lump falls in the clamped-to-zero case. -/
theorem c5_amended_witness :
    (9999 : Nat) + 0 ≤ c5Buf.length ∨ ((0 : Nat) = 0 ∧ c5Buf.length < 9999) :=
  c5_amended_clamped_lumps c5Buf [⟨"AAAAAAAA", 9999, 0⟩] rfl
    ⟨"AAAAAAAA", 9999, 0⟩ (List.mem_singleton.mpr rfl)

/-! ## Claim C7 -/

/-- The claim's reading of the integrity check: every expected hash present as
a non-empty string equals the computed one under case-insensitive comparison
(no whitespace trimming). -/
def claimedHashesMatch (e : ExpectedHashes) (c : ComputedHashes) : Prop :=
  (∀ s, e.md5 = .str s → s ≠ "" → pyLower s = pyLower c.md5) ∧
  (∀ s, e.sha1 = .str s → s ≠ "" → pyLower s = pyLower c.sha1) ∧
  (∀ s, e.sha256 = .str s → s ≠ "" → pyLower s = pyLower c.sha256)

/-- What the code actually checks: expected values that are blank after
trimming are skipped, and the comparison is on trimmed, lower-cased strings. -/
def trimmedHashesMatch (e : ExpectedHashes) (c : ComputedHashes) : Prop :=
  (∀ s, e.md5 = .str s → pyStrip s ≠ "" → pyLower (pyStrip s) = pyLower c.md5) ∧
  (∀ s, e.sha1 = .str s → pyStrip s ≠ "" → pyLower (pyStrip s) = pyLower c.sha1) ∧
  (∀ s, e.sha256 = .str s → pyStrip s ≠ "" → pyLower (pyStrip s) = pyLower c.sha256)

/-- Expected hashes of the C7 counterexample: md5 expected `"AA "`. -/
def c7CexExpected : ExpectedHashes := ⟨.str "AA ", .absent, .absent⟩

/-- Computed hashes of the C7 counterexample: md5 computed `"aa"`. -/
def c7CexComputed : ComputedHashes := ⟨"aa", "x", "y"⟩

/-- C7 counterexample: the expected md5 `"AA "` is a non-empty string that is
not case-insensitively equal to the computed `"aa"` (it has a trailing space),
so the claim's iff demands `ok = false`; the code strips the expected value
before comparing and returns `ok = true`. -/
theorem c7_counterexample :
    (validateExpectedHashes c7CexExpected c7CexComputed).ok = true ∧
    ¬ claimedHashesMatch c7CexExpected c7CexComputed := by
  refine ⟨rfl, fun h => ?_⟩
  have := h.1 "AA " rfl (by decide)
  exact absurd this (by decide)

/-- A single algorithm check passes exactly when the expected value, if a
non-blank string, matches after trimming and case folding. -/
theorem hashMismatch_none_iff (algo : String) (e : ExpVal) (g : String) :
    hashMismatch algo e g = none ↔
      (∀ s, e = .str s → pyStrip s ≠ "" → pyLower (pyStrip s) = pyLower g) := by
  cases e with
  | absent => simp [hashMismatch]
  | nonstring => simp [hashMismatch]
  | str s =>
      by_cases h0 : pyStrip s = ""
      · simp [hashMismatch, h0]
      · by_cases he : pyLower (pyStrip s) = pyLower g
        · simp [hashMismatch, h0, he]
        · simp [hashMismatch, h0, he]

/-- `validate_expected_hashes` returns `ok = true` iff all three per-algorithm
checks pass. -/
theorem validate_ok_iff (e : ExpectedHashes) (c : ComputedHashes) :
    (validateExpectedHashes e c).ok = true ↔ trimmedHashesMatch e c := by
  unfold validateExpectedHashes trimmedHashesMatch
  rw [← hashMismatch_none_iff "md5" e.md5 c.md5,
    ← hashMismatch_none_iff "sha1" e.sha1 c.sha1,
    ← hashMismatch_none_iff "sha256" e.sha256 c.sha256]
  cases h1 : hashMismatch "md5" e.md5 c.md5 <;>
    cases h2 : hashMismatch "sha1" e.sha1 c.sha1 <;>
      cases h3 : hashMismatch "sha256" e.sha256 c.sha256 <;>
        simp [h1, h2, h3, List.filterMap]

/-- Prepending a space to a string never yields the empty string. -/
theorem space_append_ne_empty (x : String) : " " ++ x ≠ "" := by
  intro hc
  have hd := congrArg String.data hc
  simp at hd

/-- Splitting the literal mismatch prefix off a failure message. -/
theorem integrity_prefix_decomp (x : String) :
    ∃ t, "Integrity check failed: " ++ x = "Integrity check failed:" ++ t ∧ t ≠ "" := by
  refine ⟨" " ++ x, ?_, space_append_ne_empty x⟩
  have hlit : ("Integrity check failed:" ++ " " : String) = "Integrity check failed: " := rfl
  rw [← String.append_assoc, hlit]

/-- A failing validation's message is the literal prefix followed by the
joined mismatch lines. -/
theorem validate_fail_message (e : ExpectedHashes) (c : ComputedHashes)
    (h : (validateExpectedHashes e c).ok = false) :
    ∃ t, (validateExpectedHashes e c).message = "Integrity check failed:" ++ t ∧ t ≠ "" := by
  unfold validateExpectedHashes at h ⊢
  cases h1 : hashMismatch "md5" e.md5 c.md5 <;>
    cases h2 : hashMismatch "sha1" e.sha1 c.sha1 <;>
      cases h3 : hashMismatch "sha256" e.sha256 c.sha256 <;>
        simp [h1, h2, h3, List.filterMap] at h ⊢ <;>
          exact integrity_prefix_decomp _

/-- After a failing integrity result is applied and nulls are pruned, the
`file` object carries `corrupt = true` and the result's message. -/
theorem mergedFile_carries_failure (wt ws u wc wm : Option JVal)
    (r : IntegrityResult) (hok : r.ok = false) (hmsg : r.message ≠ "") :
    (mergedFileField wt ws u wc wm (some r)).lookup "corrupt" = some (.bool true) ∧
    (mergedFileField wt ws u wc wm (some r)).lookup "corruptMessage" =
      some (.str r.message) := by
  unfold mergedFileField applyIntegrityToFile buildFileField pruneFlat
  rcases wt with _ | v1 <;> rcases ws with _ | v2 <;> rcases u with _ | v3 <;>
    simp [hok, hmsg, List.lookup]

/-- C7 amended: `validate_expected_hashes` returns `ok = true` iff every
expected hash that is a non-blank string matches the computed one after
whitespace trimming and case folding (blank and non-string expected entries
are skipped); on `ok = false` the message starts with the literal
`Integrity check failed:` and the merged record's pruned `file` object carries
`corrupt = true` with exactly that message. -/
theorem c7_amended_validate_and_corrupt :
    ∀ (e : ExpectedHashes) (c : ComputedHashes) (wt ws u wc wm : Option JVal),
      ((validateExpectedHashes e c).ok = true ↔ trimmedHashesMatch e c) ∧
      ((validateExpectedHashes e c).ok = false →
        (∃ t, (validateExpectedHashes e c).message = "Integrity check failed:" ++ t) ∧
        (mergedFileField wt ws u wc wm
            (some (validateExpectedHashes e c))).lookup "corrupt" = some (.bool true) ∧
        (mergedFileField wt ws u wc wm
            (some (validateExpectedHashes e c))).lookup "corruptMessage" =
          some (.str (validateExpectedHashes e c).message)) := by
  intro e c wt ws u wc wm
  refine ⟨validate_ok_iff e c, fun hok => ?_⟩
  obtain ⟨t, ht, htne⟩ := validate_fail_message e c hok
  have hmsg : (validateExpectedHashes e c).message ≠ "" := by
    rw [ht]
    intro hc
    have hd := congrArg String.data hc
    simp [String.data_append] at hd
  obtain ⟨h1, h2⟩ := mergedFile_carries_failure wt ws u wc wm
    (validateExpectedHashes e c) hok hmsg
  exact ⟨⟨t, ht⟩, h1, h2⟩

/-- Expected hashes for the C7 witness: md5 expected `"aaaa"`. -/
def c7WitExpected : ExpectedHashes := ⟨.str "aaaa", .absent, .absent⟩

/-- Computed hashes for the C7 witness: md5 computed `"bbbb"`. -/
def c7WitComputed : ComputedHashes := ⟨"bbbb", "x", "y"⟩

/-- C7 witness: the amended theorem applied at a concrete mismatching input,
discharging the `ok = false` hypothesis by evaluation. -/
theorem c7_amended_witness :
    (∃ t, (validateExpectedHashes c7WitExpected c7WitComputed).message =
      "Integrity check failed:" ++ t) ∧
    (mergedFileField none none none none none
        (some (validateExpectedHashes c7WitExpected c7WitComputed))).lookup "corrupt" =
      some (.bool true) ∧
    (mergedFileField none none none none none
        (some (validateExpectedHashes c7WitExpected c7WitComputed))).lookup "corruptMessage" =
      some (.str (validateExpectedHashes c7WitExpected c7WitComputed).message) :=
  (c7_amended_validate_and_corrupt c7WitExpected c7WitComputed
    none none none none none).2 rfl

/-! ## Claim C8 -/

/-- The key under which the dedupe actually keeps an entry: present only when
the entry carries a string map name whose trimmed, upper-cased form is
non-empty (the code drops empty-keyed entries entirely). -/
def validMapKey (e : MapEntry) : Option String :=
  match entryKey e with
  | some k => if k = "" then none else some k
  | none => none

/-- C8 counterexample: an input whose single entry has the whitespace-only map
name `" "`.  Its trimmed case-folded name is the empty string — one distinct
name in the input — but the dedupe drops the entry entirely, so the output
length is 0, not 1. -/
theorem c8_counterexample :
    dedupeKeepLast [MapEntry.named " " 0] = [] ∧
    ((([MapEntry.named " " 0] : List MapEntry).filterMap entryKey).toFinset).card = 1 :=
  ⟨rfl, rfl⟩

/-- Filtering with the seen-list extended by `a` is erasing `a` from the
filtered set. -/
theorem toFinset_filter_cons_seen (L : List String) (a : String) (seen : List String) :
    (L.filter (fun k => decide (k ∉ a :: seen))).toFinset =
      ((L.filter (fun k => decide (k ∉ seen))).toFinset).erase a := by
  ext x
  simp only [List.mem_toFinset, List.mem_filter, Finset.mem_erase, List.mem_cons,
    not_or, decide_eq_true_eq]
  tauto

/-- Inserting an element always costs exactly one more than the erased set. -/
theorem card_insert_eq_card_erase_add_one (X : Finset String) (a : String) :
    (insert a X).card = (X.erase a).card + 1 := by
  by_cases ha : a ∈ X
  · rw [Finset.insert_eq_self.mpr ha, Finset.card_erase_of_mem ha]
    have hpos : 0 < X.card := Finset.card_pos.mpr ⟨a, ha⟩
    omega
  · rw [Finset.card_insert_of_not_mem ha, Finset.erase_eq_of_not_mem ha]

/-- The dedupe loop keeps exactly one entry per distinct valid key not yet
seen. -/
theorem dedupeGo_length : ∀ (l : List MapEntry) (seen : List String),
    (dedupeGo l seen).length =
      ((l.filterMap validMapKey).filter (fun k => decide (k ∉ seen))).toFinset.card := by
  intro l
  induction l with
  | nil => intro seen; simp [dedupeGo]
  | cons e rest ih =>
      intro seen
      cases e with
      | junk p => simp [dedupeGo, validMapKey, entryKey, ih seen]
      | named n p =>
          by_cases hkey : pyUpper (pyStrip n) = ""
          · simp [dedupeGo, validMapKey, entryKey, hkey, ih seen]
          · by_cases hseen : pyUpper (pyStrip n) ∈ seen
            · simp [dedupeGo, validMapKey, entryKey, hkey, hseen, ih seen]
            · simp only [dedupeGo, validMapKey, entryKey, hkey, hseen, or_self,
                if_neg, ite_false, if_false, List.length_cons, List.filterMap_cons,
                List.filter_cons, decide_eq_true_eq, not_false_eq_true,
                List.toFinset_cons, ite_true, if_true]
              rw [ih (pyUpper (pyStrip n) :: seen),
                toFinset_filter_cons_seen _ (pyUpper (pyStrip n)) seen,
                card_insert_eq_card_erase_add_one]

/-- The output of the dedupe loop: every entry has a valid key, those keys are
pairwise distinct, and none of them was already seen. -/
theorem dedupeGo_entries : ∀ (l : List MapEntry) (seen : List String),
    ((dedupeGo l seen).filterMap validMapKey).Nodup ∧
    (∀ e ∈ dedupeGo l seen, (validMapKey e).isSome) ∧
    (∀ k ∈ (dedupeGo l seen).filterMap validMapKey, k ∉ seen) := by
  intro l
  induction l with
  | nil => intro seen; simp [dedupeGo]
  | cons e rest ih =>
      intro seen
      cases e with
      | junk p => simpa [dedupeGo] using ih seen
      | named n p =>
          by_cases hkey : pyUpper (pyStrip n) = ""
          · simpa [dedupeGo, hkey] using ih seen
          · by_cases hseen : pyUpper (pyStrip n) ∈ seen
            · simpa [dedupeGo, hkey, hseen] using ih seen
            · obtain ⟨ihn, ihs, ihk⟩ := ih (pyUpper (pyStrip n) :: seen)
              refine ⟨?_, ?_, ?_⟩
              · simp only [dedupeGo, hkey, hseen, or_self, if_neg, ite_false,
                  List.filterMap_cons, validMapKey, entryKey, ite_true, if_false]
                refine List.Nodup.cons ?_ ihn
                intro hmem
                exact (ihk _ hmem) (List.mem_cons_self _ _)
              · intro x hx
                simp only [dedupeGo, hkey, hseen, or_self, if_neg, ite_false,
                  List.mem_cons, if_false] at hx
                rcases hx with rfl | hx
                · simp [validMapKey, entryKey, hkey]
                · exact ihs x hx
              · intro k hk
                simp only [dedupeGo, hkey, hseen, or_self, if_neg, ite_false,
                  List.filterMap_cons, validMapKey, entryKey, ite_true, if_false] at hk
                rcases List.mem_cons.mp hk with rfl | hk
                · exact hseen
                · intro hc
                  exact (ihk k hk) (List.mem_cons_of_mem _ hc)

/-- The dedupe loop is the identity on a list of entries with pairwise
distinct valid keys disjoint from the seen-list. -/
theorem dedupeGo_id : ∀ (l : List MapEntry) (seen : List String),
    (∀ e ∈ l, (validMapKey e).isSome) →
    (l.filterMap validMapKey).Nodup →
    (∀ k ∈ l.filterMap validMapKey, k ∉ seen) →
    dedupeGo l seen = l := by
  intro l
  induction l with
  | nil => intro seen _ _ _; rfl
  | cons e rest ih =>
      intro seen hsome hnodup hseen
      cases e with
      | junk p => exact absurd (hsome _ (List.mem_cons_self _ _)) (by simp [validMapKey, entryKey])
      | named n p =>
          by_cases hkey : pyUpper (pyStrip n) = ""
          · exact absurd (hsome _ (List.mem_cons_self _ _))
              (by simp [validMapKey, entryKey, hkey])
          · have hkmem : pyUpper (pyStrip n) ∈
                (MapEntry.named n p :: rest).filterMap validMapKey := by
              simp [validMapKey, entryKey, hkey]
            have hknotseen : pyUpper (pyStrip n) ∉ seen := hseen _ hkmem
            have hrestkeys : (rest.filterMap validMapKey).Nodup ∧
                pyUpper (pyStrip n) ∉ rest.filterMap validMapKey := by
              have := hnodup
              simp only [List.filterMap_cons, validMapKey, entryKey, if_neg hkey] at this
              exact ⟨this.of_cons, by
                have hn := List.nodup_cons.mp this
                exact hn.1⟩
            simp only [dedupeGo]
            rw [if_neg (show ¬ (pyUpper (pyStrip n) = "" ∨ pyUpper (pyStrip n) ∈ seen) from
              fun hc => hc.elim hkey hknotseen)]
            congr 1
            refine ih _ (fun e he => hsome e (List.mem_cons_of_mem _ he)) hrestkeys.1 ?_
            intro k hk
            simp only [List.mem_cons, not_or]
            constructor
            · intro hc
              subst hc
              exact hrestkeys.2 hk
            · refine hseen k ?_
              simp only [List.filterMap_cons, validMapKey, entryKey, if_neg hkey]
              exact List.mem_cons_of_mem _ hk

/-- C8 amended: `_dedupe_per_map_stats_keep_last` is idempotent, and its
output length equals the number of distinct **non-empty** case-folded,
whitespace-trimmed map names among the input's entries that carry a string map
name (entries whose name trims to the empty string are dropped entirely, not
counted). -/
theorem c8_amended_idempotent_and_length :
    (∀ l : List MapEntry, dedupeKeepLast (dedupeKeepLast l) = dedupeKeepLast l) ∧
    (∀ l : List MapEntry,
      (dedupeKeepLast l).length = ((l.filterMap validMapKey).toFinset).card) := by
  constructor
  · intro l
    unfold dedupeKeepLast
    rw [List.reverse_reverse]
    obtain ⟨hnodup, hsome, _⟩ := dedupeGo_entries l.reverse []
    rw [dedupeGo_id (dedupeGo l.reverse []) [] hsome hnodup
      (fun k _ => List.not_mem_nil k)]
  · intro l
    unfold dedupeKeepLast
    rw [List.length_reverse, dedupeGo_length]
    have hfil : (l.reverse.filterMap validMapKey).filter
        (fun k => decide (k ∉ ([] : List String))) = l.reverse.filterMap validMapKey := by
      apply List.filter_eq_self.mpr
      intro a _
      simp
    rw [hfil]
    have hrev : (l.reverse.filterMap validMapKey).toFinset =
        (l.filterMap validMapKey).toFinset := by
      ext x
      simp [List.mem_filterMap, List.mem_reverse]
    rw [hrev]

/-! ## Claim C4 -/

/-- A member of a list that fails the predicate survives `dropWhile`. -/
theorem mem_dropWhile_of_not (p : Char → Bool) (l : List Char) (c : Char)
    (hc : c ∈ l) (hw : p c = false) : c ∈ l.dropWhile p := by
  induction l with
  | nil => simp at hc
  | cons a l ih =>
      rw [List.dropWhile_cons]
      by_cases hpa : p a = true
      · rw [if_pos hpa]
        rcases List.mem_cons.mp hc with rfl | h'
        · rw [hpa] at hw
          exact absurd hw (by simp)
        · exact ih h'
      · rw [if_neg hpa]
        exact hc

/-- A character list containing a non-whitespace character does not strip to
the empty list. -/
theorem pyStripList_ne_nil (cs : List Char) (c : Char)
    (hc : c ∈ cs) (hw : isPyWS c = false) : pyStripList cs ≠ [] := by
  unfold pyStripList
  have h1 : c ∈ cs.dropWhile isPyWS := mem_dropWhile_of_not _ _ _ hc hw
  have h2 : c ∈ (cs.dropWhile isPyWS).reverse := List.mem_reverse.mpr h1
  have h3 : c ∈ ((cs.dropWhile isPyWS).reverse.dropWhile isPyWS) :=
    mem_dropWhile_of_not _ _ _ h2 hw
  have h4 : c ∈ ((cs.dropWhile isPyWS).reverse.dropWhile isPyWS).reverse :=
    List.mem_reverse.mpr h3
  exact List.ne_nil_of_mem h4

/-- Every string matched by the map-marker pattern starts with `'E'` or
`'M'`, a non-whitespace character. -/
theorem marker_has_nonws (s : String) (h : isMapMarker s = true) :
    ∃ c ∈ s.toList, isPyWS c = false := by
  unfold isMapMarker at h
  split at h
  · rename_i heq
    exact ⟨'E', by rw [heq]; exact List.mem_cons_self _ _, by decide⟩
  · rename_i heq
    exact ⟨'M', by rw [heq]; exact List.mem_cons_self _ _, by decide⟩
  · rename_i heq
    exact ⟨'E', by rw [heq]; exact List.mem_cons_self _ _, by decide⟩
  · rename_i heq
    exact ⟨'M', by rw [heq]; exact List.mem_cons_self _ _, by decide⟩
  · exact absurd h (by simp)

/-- Stripping a marker name never yields the empty string. -/
theorem marker_strip_ne_empty (s : String) (h : isMapMarker s = true) :
    pyStrip s ≠ "" := by
  obtain ⟨c, hc, hw⟩ := marker_has_nonws s h
  intro hcontra
  have hd := congrArg String.data hcontra
  simp only [pyStrip] at hd
  exact pyStripList_ne_nil s.toList c hc hw hd

/-- Membership in the `uniq_preserve` loop: the stripped value must be
non-empty, unseen, and the strip of some input element. -/
theorem mem_uniqPreserveGo : ∀ (l seen : List String) (y : String),
    y ∈ uniqPreserveGo l seen ↔ (y ∉ seen ∧ y ≠ "" ∧ ∃ x ∈ l, pyStrip x = y) := by
  intro l
  induction l with
  | nil => intro seen y; simp [uniqPreserveGo]
  | cons x rest ih =>
      intro seen y
      simp only [uniqPreserveGo]
      by_cases hx : pyStrip x = "" ∨ pyStrip x ∈ seen
      · rw [if_pos hx, ih seen y]
        constructor
        · rintro ⟨h1, h2, z, hz, he⟩
          exact ⟨h1, h2, z, List.mem_cons_of_mem _ hz, he⟩
        · rintro ⟨h1, h2, z, hz, he⟩
          rcases List.mem_cons.mp hz with rfl | hz'
          · rcases hx with hx | hx
            · exact absurd (he ▸ hx) h2
            · exact absurd (he ▸ hx) h1
          · exact ⟨h1, h2, z, hz', he⟩
      · rw [if_neg hx]
        push_neg at hx
        obtain ⟨hxe, hxs⟩ := hx
        simp only [List.mem_cons]
        constructor
        · rintro (rfl | hy)
          · exact ⟨hxs, hxe, x, Or.inl rfl, rfl⟩
          · obtain ⟨h1, h2, z, hz, he⟩ := (ih _ y).mp hy
            exact ⟨fun hc => h1 (List.mem_cons_of_mem _ hc), h2, z, Or.inr hz, he⟩
        · rintro ⟨h1, h2, z, hz, he⟩
          by_cases hyx : y = pyStrip x
          · exact Or.inl hyx
          · refine Or.inr ((ih _ y).mpr ⟨?_, h2, ?_⟩)
            · intro hc
              rcases List.mem_cons.mp hc with hc1 | hc2
              · exact hyx hc1
              · exact h1 hc2
            · rcases hz with rfl | hz'
              · exact absurd he.symm hyx
              · exact ⟨z, hz', he⟩

/-- Membership in the confirmed-marker list. -/
theorem mem_foundMarkers (names : List String) (x : String) :
    x ∈ foundMarkers names ↔
      ∃ i, i < names.length ∧
        (isMapMarker (names.getD i "") && coreOk names i) = true ∧
        names.getD i "" = x := by
  unfold foundMarkers
  simp only [List.mem_filterMap, List.mem_range]
  constructor
  · rintro ⟨i, hi, hsome⟩
    by_cases hc : (isMapMarker (names.getD i "") && coreOk names i) = true
    · rw [if_pos hc] at hsome
      exact ⟨i, hi, hc, Option.some.inj hsome⟩
    · rw [if_neg hc] at hsome
      simp at hsome
  · rintro ⟨i, hi, hc, rfl⟩
    exact ⟨i, hi, by rw [if_pos hc]⟩

/-- The C4 counterexample directory: a marker immediately followed by THINGS
and LINEDEFS and nothing else. -/
def c4Block : List WadLump :=
  [⟨"MAP01", 0, 0⟩, ⟨"THINGS", 0, 0⟩, ⟨"LINEDEFS", 0, 0⟩]

/-- C4 counterexample: `MAP01` is a marker and both THINGS and LINEDEFS appear
among the next 15 entries, so the claim requires it to be reported; the code
reports nothing, because it demands all five of THINGS, LINEDEFS, SIDEDEFS,
VERTEXES and SECTORS. -/
theorem c4_counterexample :
    "MAP01" ∉ detectMapsFromLumps c4Block ∧
    isMapMarker ((namesOf c4Block).getD 0 "") = true ∧
    "THINGS" ∈ ((namesOf c4Block).drop 1).take 15 ∧
    "LINEDEFS" ∈ ((namesOf c4Block).drop 1).take 15 := by
  have h : detectMapsFromLumps c4Block = [] := rfl
  refine ⟨?_, rfl, by decide, by decide⟩
  rw [h]
  exact List.not_mem_nil _

/-- C4 amended: a name is reported in the extracted maps list iff some
directory position holds a marker-matching (upper-cased) name stripping to it
such that **all five** core lumps — THINGS, LINEDEFS, SIDEDEFS, VERTEXES,
SECTORS — appear among the next **16** entries. -/
theorem c4_amended_membership :
    ∀ (lumps : List WadLump) (y : String),
      y ∈ detectMapsFromLumps lumps ↔
        ∃ i, i < lumps.length ∧
          isMapMarker ((namesOf lumps).getD i "") = true ∧
          coreOk (namesOf lumps) i = true ∧
          pyStrip ((namesOf lumps).getD i "") = y := by
  intro lumps y
  have hlen : (namesOf lumps).length = lumps.length := List.length_map _ _
  unfold detectMapsFromLumps uniqPreserve
  rw [mem_uniqPreserveGo]
  constructor
  · rintro ⟨_, _, x, hx, rfl⟩
    obtain ⟨i, hi, hc, rfl⟩ := (mem_foundMarkers _ _).mp hx
    rw [Bool.and_eq_true] at hc
    exact ⟨i, hlen ▸ hi, hc.1, hc.2, rfl⟩
  · rintro ⟨i, hi, hm, hco, rfl⟩
    refine ⟨List.not_mem_nil _, marker_strip_ne_empty _ hm, ?_⟩
    exact ⟨(namesOf lumps).getD i "",
      (mem_foundMarkers _ _).mpr ⟨i, hlen ▸ hi,
        by rw [Bool.and_eq_true]; exact ⟨hm, hco⟩, rfl⟩, rfl⟩

/-! ## Claim C10 -/

/-- Extending the seen-list is a subsequent filter on the not-yet-seen list. -/
theorem filter_seen_cons (L : List String) (a : String) (seen : List String) :
    L.filter (fun s => decide (s ≠ "") && decide (s ∉ a :: seen)) =
      (L.filter (fun s => decide (s ≠ "") && decide (s ∉ seen))).filter
        (fun b => decide (b ≠ a)) := by
  rw [List.filter_filter]
  apply List.filter_congr
  intro s _
  by_cases h1 : s = "" <;> by_cases h2 : s = a <;> by_cases h3 : s ∈ seen <;>
    simp [h1, h2, h3, List.mem_cons]

/-- The `uniq_preserve` loop equals first-occurrence deduplication of the
stripped, non-empty, unseen values. -/
theorem uniqPreserveGo_eq_dedupFirstSpec : ∀ (l seen : List String),
    uniqPreserveGo l seen =
      dedupFirstSpec ((l.map pyStrip).filter
        (fun s => decide (s ≠ "") && decide (s ∉ seen))) := by
  intro l
  induction l with
  | nil => intro seen; simp [uniqPreserveGo, dedupFirstSpec]
  | cons x rest ih =>
      intro seen
      simp only [uniqPreserveGo, List.map_cons, List.filter_cons]
      by_cases h1 : pyStrip x = ""
      · rw [if_pos (Or.inl h1)]
        have hcond : (decide (pyStrip x ≠ "") && decide (pyStrip x ∉ seen)) = false := by
          simp [h1]
        rw [hcond]
        simp only [Bool.false_eq_true, if_false]
        exact ih seen
      · by_cases h2 : pyStrip x ∈ seen
        · rw [if_pos (Or.inr h2)]
          have hcond : (decide (pyStrip x ≠ "") && decide (pyStrip x ∉ seen)) = false := by
            simp [h2]
          rw [hcond]
          simp only [Bool.false_eq_true, if_false]
          exact ih seen
        · rw [if_neg (fun hc => hc.elim h1 h2)]
          have hcond : (decide (pyStrip x ≠ "") && decide (pyStrip x ∉ seen)) = true := by
            simp [h1, h2]
          rw [hcond]
          simp only [if_true]
          rw [dedupFirstSpec, ih (pyStrip x :: seen), filter_seen_cons]

/-- First-occurrence deduplication only returns input elements. -/
theorem dedupFirstSpec_subset : ∀ (n : Nat) (l : List String), l.length ≤ n →
    ∀ y ∈ dedupFirstSpec l, y ∈ l := by
  intro n
  induction n with
  | zero =>
      intro l hl y hy
      rw [List.length_eq_zero.mp (Nat.le_zero.mp hl)] at hy ⊢
      rw [dedupFirstSpec] at hy
      exact hy
  | succ n ih =>
      intro l hl y hy
      cases l with
      | nil =>
          rw [dedupFirstSpec] at hy
          exact hy
      | cons a L =>
          rw [dedupFirstSpec] at hy
          rcases List.mem_cons.mp hy with rfl | hy'
          · exact List.mem_cons_self _ _
          · have hlen : (L.filter (fun b => decide (b ≠ a))).length ≤ n := by
              have := List.length_filter_le (fun b => decide (b ≠ a)) L
              simp only [List.length_cons] at hl
              omega
            have := ih _ hlen y hy'
            exact List.mem_cons_of_mem _ (List.mem_of_mem_filter this)

/-- First-occurrence deduplication yields a duplicate-free list. -/
theorem dedupFirstSpec_nodup : ∀ (n : Nat) (l : List String), l.length ≤ n →
    (dedupFirstSpec l).Nodup := by
  intro n
  induction n with
  | zero =>
      intro l hl
      rw [List.length_eq_zero.mp (Nat.le_zero.mp hl)]
      simp [dedupFirstSpec]
  | succ n ih =>
      intro l hl
      cases l with
      | nil => simp [dedupFirstSpec]
      | cons a L =>
          rw [dedupFirstSpec]
          have hlen : (L.filter (fun b => decide (b ≠ a))).length ≤ n := by
            have := List.length_filter_le (fun b => decide (b ≠ a)) L
            simp only [List.length_cons] at hl
            omega
          refine List.Nodup.cons ?_ (ih _ hlen)
          intro hmem
          have := dedupFirstSpec_subset n _ hlen a hmem
          have := List.of_mem_filter this
          simp at this

/-- The confirmed marker names of a buffer, stripped, in directory order,
duplicates included (the list before `uniq_preserve`). -/
def confirmedMarkerNames (buf : List Nat) : List String :=
  match parseWadLumps buf with
  | some lumps => (foundMarkers (namesOf lumps)).map pyStrip
  | none => []

/-- Every confirmed marker name strips to a non-empty string, so the
validity filter of `uniq_preserve` keeps all of them. -/
theorem foundMarkers_filter_eq (names : List String) :
    ((foundMarkers names).map pyStrip).filter
        (fun s => decide (s ≠ "") && decide (s ∉ ([] : List String))) =
      (foundMarkers names).map pyStrip := by
  apply List.filter_eq_self.mpr
  intro a ha
  obtain ⟨x, hx, rfl⟩ := List.mem_map.mp ha
  obtain ⟨i, _, hc, rfl⟩ := (mem_foundMarkers _ _).mp hx
  rw [Bool.and_eq_true] at hc
  simp only [Bool.and_eq_true, decide_eq_true_eq]
  exact ⟨marker_strip_ne_empty _ hc.1, List.not_mem_nil _⟩

/-- C10: the maps list of the WAD metadata extractor is exactly the
first-occurrence deduplication of the confirmed marker names: no duplicates,
each name listed at its first confirmed occurrence, relative order
preserved. -/
theorem c10_maps_first_occurrence_nodup :
    ∀ buf : List Nat,
      extractWadMaps buf = dedupFirstSpec (confirmedMarkerNames buf) ∧
      (extractWadMaps buf).Nodup := by
  intro buf
  unfold extractWadMaps confirmedMarkerNames
  cases hp : parseWadLumps buf with
  | none =>
      dsimp only
      exact ⟨by rw [dedupFirstSpec], List.nodup_nil⟩
  | some lumps =>
      dsimp only
      by_cases hE : lumps.isEmpty
      · rw [if_pos hE]
        have hnil : lumps = [] := by
          cases lumps with
          | nil => rfl
          | cons a L => simp [List.isEmpty] at hE
        subst hnil
        constructor
        · rw [show foundMarkers (namesOf ([] : List WadLump)) = [] from rfl]
          rw [show (([] : List String).map pyStrip) = [] from rfl, dedupFirstSpec]
        · exact List.nodup_nil
      · rw [if_neg hE]
        constructor
        · unfold detectMapsFromLumps uniqPreserve
          rw [uniqPreserveGo_eq_dedupFirstSpec, foundMarkers_filter_eq]
        · unfold detectMapsFromLumps uniqPreserve
          rw [uniqPreserveGo_eq_dedupFirstSpec]
          exact dedupFirstSpec_nodup _ _ (Nat.le_refl _)

end Dorch
